import Mathlib

/-
Verification of the research loop coordinator of an iterative web-research
assistant (`coordinator.py`).

The development shallowly embeds the coordinator's data model and operations:
  * the lexical tokenizer `_tok` and scorer `_match_score`
    (Python floats are embedded as exact rationals `ℚ`;
    `str.lower` is modelled as ASCII lowercasing — the token pattern
    `[^a-z0-9]+` discards every non-ASCII character afterwards anyway);
  * the per-query ranker/filter of `ResearchCoordinator._research_queries`
    (Python's stable in-place `list.sort(reverse=True, key=score)` is embedded
    as a stable descending insertion sort, whose order, permutation and
    stability properties are proven below);
  * the round loop of `ResearchCoordinator.research`, with the external
    capabilities (query generation, search provider, summarization, follow-up
    decision, synthesis) supplied as an explicit environment of oracles.

Python optional strings are embedded as `Option String` (`none` is Python's
`None`); raw search-hit dictionaries carry `Option (Option String)` per key
(the outer layer records whether the key is present at all).
-/

/-- Python truthiness of an optional string: `None` and `""` are falsy. -/
def pyTruthy : Option String → Bool
  | Option.none => false
  | Option.some s => s != ""

/-- Python `a or b` on optional strings. -/
def pyOr (a b : Option String) : Option String := if pyTruthy a then a else b

/-- Python f-string rendering of an optional string: `None` prints as "None". -/
def pyFStr : Option String → String
  | Option.none => "None"
  | Option.some s => s

/-- Python `d.get(key, "")`: the default `""` for an absent key, otherwise the
stored value (which may itself be `None`). -/
def pyGet (v : Option (Option String)) : Option String :=
  match v with
  | Option.none => Option.some ""
  | Option.some x => x

/-- Characters kept by the token pattern: the regex `[^a-z0-9]+` of
`coordinator._TOKEN_RE` replaces every run of other characters by a space. -/
def isTokChar (c : Char) : Bool := ('a' ≤ c && c ≤ 'z') || ('0' ≤ c && c ≤ '9')

/-- The fixed stop-word set `coordinator._STOP_WORDS`. -/
def _STOP_WORDS : List String :=
  ["the","a","an","and","or","of","in","on","for","to",
   "with","by","about","is","are","was","were","be"]

/-- One step of grouping characters into maximal alphanumeric runs; the head
of the accumulator is the run currently being built, and a non-token character
starts a fresh (initially empty) run. -/
def pushChar (c : Char) (acc : List (List Char)) : List (List Char) :=
  if isTokChar c then
    match acc with
    | [] => [[c]]
    | r :: rs => (c :: r) :: rs
  else [] :: acc

/-- Maximal runs of token characters of a character list, with the (possibly
empty) pieces between non-token characters still present. -/
def charRuns (l : List Char) : List (List Char) := l.foldr pushChar [[]]

/-- Embedding of `coordinator._tok`: coerce a falsy (`None` or empty) input to
`""`, lowercase, cut into maximal alphanumeric runs, and keep the non-empty
tokens that are not stop words.  Taking maximal `[a-z0-9]` runs and discarding
empty pieces is exactly what replacing each non-alphanumeric run by one space
(`_TOKEN_RE.sub`) followed by whitespace splitting (`str.split`) computes. -/
def _tok (s : Option String) : List String :=
  ((charRuns ((s.getD "").toList.map Char.toLower)).map (fun r => String.mk r)).filter
    (fun t => t != "" && !(_STOP_WORDS.contains t))

/-- Whether the character list `a` matches a leading segment of `b`. -/
def leadMatch : List Char → List Char → Bool
  | [], _ => true
  | _ :: _, [] => false
  | a :: as, b :: bs => a == b && leadMatch as bs

/-- Whether `a` occurs contiguously inside `b`, modelling Python's
substring test `a in b`. -/
def containsSeq (a : List Char) : List Char → Bool
  | [] => leadMatch a []
  | b :: bs => leadMatch a (b :: bs) || containsSeq a bs

/-- Python's `sub in s` on strings: contiguous substring occurrence. -/
def isSubstring (a b : String) : Bool := containsSeq a.toList b.toList

/-- Embedding of `coordinator._match_score`: lexical 0–1-ish relevance score.
Weights title over snippet over url, plus a phrase bonus when the joined query
tokens occur contiguously in the joined title tokens.  Python float arithmetic
is embedded as exact rational arithmetic. -/
def _match_score (query title url snippet : Option String) : ℚ :=
  let q : Finset String := (_tok query).toFinset
  if q = ∅ then 0 else
    let t : Finset String := (_tok title).toFinset
    let s : Finset String := (_tok snippet).toFinset
    let u : Finset String := (_tok url).toFinset
    let ov_title : ℚ := ((q ∩ t).card : ℚ) / ((max 1 q.card : ℕ) : ℚ)
    let ov_snip : ℚ := ((q ∩ s).card : ℚ) / ((max 1 q.card : ℕ) : ℚ)
    let ov_url : ℚ := ((q ∩ u).card : ℚ) / ((max 1 q.card : ℕ) : ℚ)
    let phrase_bonus : ℚ :=
      if isSubstring (String.intercalate " " (_tok query))
          (String.intercalate " " (_tok title)) then 0.1 else 0
    0.6 * ov_title + 0.25 * ov_snip + 0.15 * ov_url + phrase_bonus

/-- Residual token set of a field, as used by the scorer. -/
def tokenSet (s : Option String) : Finset String := (_tok s).toFinset

/-- Overlap ratio of the specification: `|Q ∩ X| / max(1, |Q|)`. -/
def overlapQ (q x : Finset String) : ℚ :=
  ((q ∩ x).card : ℚ) / ((max 1 q.card : ℕ) : ℚ)

/-- Phrase bonus of the specification: `0.1` iff the space-joined tokenized
query occurs contiguously in the space-joined tokenized title. -/
def phraseBonus (query title : Option String) : ℚ :=
  if isSubstring (String.intercalate " " (_tok query))
      (String.intercalate " " (_tok title)) then 0.1 else 0

/-- A raw search hit: a Python dictionary.  Each relevant key is either absent
(outer `none`) or present with an optional-string value (inner layer, where
`none` is Python's `None`). -/
structure RawHit where
  title : Option (Option String) := Option.none
  href : Option (Option String) := Option.none
  body : Option (Option String) := Option.none
  snippet : Option (Option String) := Option.none
  deriving DecidableEq

/-- Scored candidate tuple `(score, title, url)` built in `_research_queries`. -/
abbrev Scored : Type := ℚ × Option String × Option String

/-- Extraction `r.get("title", "")`. -/
def hitTitle (r : RawHit) : Option String := pyGet r.title

/-- Extraction `r.get("href", "")`. -/
def hitUrl (r : RawHit) : Option String := pyGet r.href

/-- Extraction `r.get("body", "") or r.get("snippet", "") or ""`. -/
def hitSnip (r : RawHit) : Option String :=
  pyOr (pyOr (pyGet r.body) (pyGet r.snippet)) (Option.some "")

/-- Score of one raw hit against the query, as computed per hit in
`_research_queries`. -/
def scoreHit (q : Option String) (r : RawHit) : ℚ :=
  _match_score q (hitTitle r) (hitUrl r) (hitSnip r)

/-- The `ranked` list of `(score, title, url)` tuples, in raw-hit order. -/
def rankHits (q : Option String) (raw : List RawHit) : List Scored :=
  raw.map (fun r => (scoreHit q r, hitTitle r, hitUrl r))

/-- Stable insertion of a later element into a descending-sorted list: the new
element goes after every earlier element of greater-or-equal score. -/
def insertDesc (x : Scored) : List Scored → List Scored
  | [] => [x]
  | y :: ys => if x.1 ≤ y.1 then y :: insertDesc x ys else x :: y :: ys

/-- Embedding of `ranked.sort(reverse=True, key=lambda x: x[0])`: Python's
sort is stable, and a stable descending sort is extensionally the left-to-right
insertion sort below (order and stability are proven later). -/
def sortRanked (l : List Scored) : List Scored :=
  l.foldl (fun acc x => insertDesc x acc) []

/-- The fixed minimum score threshold `MIN_SCORE` of `_research_queries`. -/
def MIN_SCORE : ℚ := 0.26

/-- Pick selection of `_research_queries`, applied to the sorted list: keep the
entries clearing the threshold, truncated to `picks_per_query`; when that is
empty and the list is not, fall back to the single best entry. -/
def picksOf (ranked : List Scored) (ppq : Nat) : List Scored :=
  let picks := (ranked.filter (fun x => MIN_SCORE ≤ x.1)).take ppq
  if picks.isEmpty && !ranked.isEmpty then ranked.take 1 else picks

/-- Output shape of `research_agents.query_agent.QueryResponse`. -/
structure QueryResponse where
  queries : List String
  thoughts : String

/-- Output shape of `research_agents.follow_up_agent.FollowUpDecisionResponse`. -/
structure FollowUpDecisionResponse where
  should_follow_up : Bool
  reasoning : String
  queries : List String

/-- Modelled from the spec: `models.SearchResult` is the record
`{ title: string, url: string, summary: string }` created when a picked
candidate is summarized (the module `models.py` is absent from the sources;
title and url are carried as optional strings, exactly the values the
coordinator passes for them). -/
structure SearchResult where
  title : Option String
  url : Option String
  summary : String
  deriving DecidableEq

/-- The external capabilities the coordinator delegates to, as oracles: the
query generation response, the raw search provider (which may fail), the
summarizer, the follow-up decision on the findings digest, and the synthesizer
on the synthesis digest. -/
structure Env where
  queryGen : QueryResponse
  ddgText : String → Except String (List RawHit)
  summarize : String → String
  followUp : String → FollowUpDecisionResponse
  synthesize : String → String

/-- Mutable coordinator fields accumulated across rounds. -/
structure CoordState where
  search_results : List SearchResult
  generated_queries : List String
  deriving DecidableEq

/-- Embedding of `ResearchCoordinator._ddg_search`: any provider exception is
caught and converted to an empty hit list. -/
def ddgSearch (env : Env) (q : String) : List RawHit :=
  match env.ddgText q with
  | Except.ok l => l
  | Except.error _ => []

/-- The picks selected for one query: search, score, stable-sort, filter. -/
def pickTuples (env : Env) (ppq : Nat) (q : String) : List Scored :=
  picksOf (sortRanked (rankHits (Option.some q) (ddgSearch env q))) ppq

/-- Input string of the summarization call: `f"Title: {title}\nURL: {url}"`. -/
def summarizeInput (title url : Option String) : String :=
  "Title: " ++ pyFStr title ++ "\nURL: " ++ pyFStr url

/-- The `SearchResult` appended for one pick. -/
def resultOfPick (env : Env) (p : Scored) : SearchResult :=
  { title := p.2.1, url := p.2.2, summary := env.summarize (summarizeInput p.2.1 p.2.2) }

/-- Per-query body of `_research_queries`: summarize each pick in order and
append it to the accumulated results. -/
def researchQuery (env : Env) (ppq : Nat) (st : CoordState) (q : String) : CoordState :=
  (pickTuples env ppq q).foldl
    (fun acc p => { acc with search_results := acc.search_results ++ [resultOfPick env p] }) st

/-- Embedding of `ResearchCoordinator._research_queries`. -/
def researchQueries (env : Env) (ppq : Nat) (st : CoordState) (qs : List String) : CoordState :=
  qs.foldl (researchQuery env ppq) st

/-- The results contributed by one query, in pick order. -/
def queryResults (env : Env) (ppq : Nat) (q : String) : List SearchResult :=
  (pickTuples env ppq q).map (resultOfPick env)

/-- Python `sep.join(lines)`. -/
def pyJoin (sep : String) : List String → String
  | [] => ""
  | [a] => a
  | a :: b :: rest => a ++ sep ++ pyJoin sep (b :: rest)

/-- Plain concatenation of a list of strings (specification side). -/
def strJoin : List String → String
  | [] => ""
  | a :: as => a ++ strJoin as

/-- The numbered digest entry
`f"\n{i}. Title: {r.title}\n   URL: {r.url}\n   Summary: {r.summary}\n"`,
shared by `_findings_text` and `_synthesize`. -/
def findingLine (i : Nat) (r : SearchResult) : String :=
  "\n" ++ toString i ++ ". Title: " ++ pyFStr r.title ++ "\n   URL: " ++ pyFStr r.url ++
    "\n   Summary: " ++ r.summary ++ "\n"

/-- Embedding of `ResearchCoordinator._findings_text`: header lines followed by
the 1-based numbered digest entries, joined with newlines. -/
def findingsText (topic : String) (st : CoordState) : String :=
  pyJoin "\n"
    (["Original Query: " ++ topic, "", "Current Findings:"] ++
      (st.search_results.enumFrom 1).map (fun p => findingLine p.1 p.2))

/-- The fixed instructional preamble of `_synthesize`, ending with the query
header of the synthesis digest. -/
def synthPreamble (topic : String) : String :=
  "Instruction: In your report, use in-text citations with square brackets " ++
  "corresponding to the numbered sources below, e.g., [1], [2]. \n\n" ++
  "IMPORTANT: Do NOT use LaTeX math delimiters `$...` or `$$...$$`. " ++
  "If you need currency, write `USD 1,000` (not `$1,000`).\n\n" ++
  "Query: " ++ topic ++ "\n\nSearch Results:\n"

/-- Embedding of the digest built in `ResearchCoordinator._synthesize`:
the preamble, extended by one numbered entry per accumulated result. -/
def synthInput (topic : String) (results : List SearchResult) : String :=
  (results.enumFrom 1).foldl (fun acc p => acc ++ findingLine p.1 p.2) (synthPreamble topic)

/-- Follow-up round loop of `ResearchCoordinator.research`, with fuel
`max_rounds - round_no`: while fuel remains, evaluate the follow-up decision on
the current digest; continue with the decision's queries or stop.  Returns the
final state, the number of additional research rounds performed, and the number
of follow-up decision invocations. -/
def researchLoop (env : Env) (ppq : Nat) (topic : String) :
    Nat → CoordState → CoordState × Nat × Nat
  | 0, st => (st, 0, 0)
  | k + 1, st =>
    let d := env.followUp (findingsText topic st)
    if d.should_follow_up then
      let r := researchLoop env ppq topic k (researchQueries env ppq st d.queries)
      (r.1, r.2.1 + 1, r.2.2 + 1)
    else (st, 0, 1)

/-- The query batches executed by the follow-up rounds, in execution order. -/
def loopBatches (env : Env) (ppq : Nat) (topic : String) :
    Nat → CoordState → List (List String)
  | 0, _ => []
  | k + 1, st =>
    let d := env.followUp (findingsText topic st)
    if d.should_follow_up then
      d.queries :: loopBatches env ppq topic k (researchQueries env ppq st d.queries)
    else []

/-- Coordinator state after query generation and round 1. -/
def afterRound1 (env : Env) (ppq : Nat) : CoordState :=
  researchQueries env ppq
    { search_results := [], generated_queries := env.queryGen.queries }
    env.queryGen.queries

/-- Observable outcome of a `research()` call: the final coordinator state, the
synthesized report, and instrumentation counting the research rounds performed
and the follow-up adapter invocations. -/
structure ResearchOutcome where
  state : CoordState
  report : String
  rounds : Nat
  followUpCalls : Nat
  deriving DecidableEq

/-- Embedding of `ResearchCoordinator.research`: generate queries, run round 1,
run the bounded follow-up loop (`while round_no < max_rounds`), synthesize. -/
def research (env : Env) (ppq maxRounds : Nat) (topic : String) : ResearchOutcome :=
  let st1 := afterRound1 env ppq
  let r := researchLoop env ppq topic (maxRounds - 1) st1
  { state := r.1
    report := env.synthesize (synthInput topic r.1.search_results)
    rounds := 1 + r.2.1
    followUpCalls := r.2.2 }

/-- Environment variant used to state search-failure resilience: the provider's
behaviour on one query is replaced by a successful empty result list. -/
def envClearSearch (env : Env) (q : String) : Env :=
  { env with ddgText := fun x => if x = q then Except.ok [] else env.ddgText x }

/-- A sample hit whose title token matches the query "hello"
(score 0.6 + 0.1 = 0.7). -/
def hitHello : RawHit :=
  { title := Option.some (Option.some "hello"), href := Option.some (Option.some "x") }

/-- A sample hit carrying none of the relevant keys (score 0 for a query with
residual tokens). -/
def hitBare : RawHit := ⟨Option.none, Option.none, Option.none, Option.none⟩

/-- A sample hit whose url holds one of the two tokens of the query
"alpha beta" (score 0.15 * (1/2) = 0.075). -/
def hitUrlAlpha : RawHit := { href := Option.some (Option.some "alpha") }

/-- A concrete environment whose follow-up decision always asks for more
research. -/
def envW : Env :=
  { queryGen := { queries := ["q1"], thoughts := "t" }
    ddgText := fun _ => Except.ok [hitHello]
    summarize := fun _ => "summary"
    followUp := fun _ => { should_follow_up := true, reasoning := "more", queries := ["q2"] }
    synthesize := fun _ => "report" }

/-- A concrete environment whose follow-up decision immediately stops. -/
def envStop : Env :=
  { envW with
    followUp := fun _ => { should_follow_up := false, reasoning := "enough", queries := [] } }

/-- A concrete environment whose search provider raises on query "a". -/
def envErr : Env :=
  { envW with
    queryGen := { queries := ["a", "b"], thoughts := "" }
    ddgText := fun x => if x = "a" then Except.error "boom" else Except.ok [] }

theorem insertDesc_perm (x : Scored) (l : List Scored) :
    List.Perm (insertDesc x l) (x :: l) := by
  induction l with
  | nil => simp [insertDesc]
  | cons y ys ih =>
    simp only [insertDesc]
    split
    · exact ((ih.cons y).trans (List.Perm.swap x y ys))
    · exact List.Perm.refl _

theorem insertDesc_sorted (x : Scored) (l : List Scored)
    (h : l.Pairwise (fun a b => b.1 ≤ a.1)) :
    (insertDesc x l).Pairwise (fun a b => b.1 ≤ a.1) := by
  induction l with
  | nil => simp [insertDesc]
  | cons y ys ih =>
    rcases List.pairwise_cons.mp h with ⟨hy, hys⟩
    simp only [insertDesc]
    split
    · rename_i hxy
      refine List.pairwise_cons.mpr ⟨?_, ih hys⟩
      intro z hz
      have hz' := (insertDesc_perm x ys).mem_iff.mp hz
      rcases List.mem_cons.mp hz' with rfl | hz''
      · exact hxy
      · exact hy z hz''
    · rename_i hxy
      push_neg at hxy
      refine List.pairwise_cons.mpr ⟨?_, h⟩
      intro z hz
      rcases List.mem_cons.mp hz with rfl | hz'
      · exact le_of_lt hxy
      · exact le_trans (hy z hz') (le_of_lt hxy)

theorem insertDesc_filter (c : ℚ) (x : Scored) (m : List Scored)
    (h : m.Pairwise (fun a b => b.1 ≤ a.1)) :
    (insertDesc x m).filter (fun z => z.1 = c)
      = if x.1 = c then m.filter (fun z => z.1 = c) ++ [x]
        else m.filter (fun z => z.1 = c) := by
  induction m with
  | nil => simp only [insertDesc, List.filter_cons, List.filter_nil]; split <;> simp_all
  | cons y ys ih =>
    rcases List.pairwise_cons.mp h with ⟨hy, hys⟩
    simp only [insertDesc]
    split
    · simp only [List.filter_cons, ih hys]
      by_cases hyc : y.1 = c <;> by_cases hxc : x.1 = c <;> simp [hyc, hxc]
    · rename_i hxy
      push_neg at hxy
      by_cases hxc : x.1 = c
      · have hnil : (y :: ys).filter (fun z => z.1 = c) = [] := by
          rw [List.filter_eq_nil_iff]
          intro z hz
          have hzy : z.1 ≤ y.1 := by
            rcases List.mem_cons.mp hz with rfl | hz'
            · exact le_refl _
            · exact hy z hz'
          have hlt : z.1 < c := lt_of_le_of_lt hzy (hxc ▸ hxy)
          simp [ne_of_lt hlt]
        simp [List.filter_cons, hxc, hnil]
      · simp [List.filter_cons, hxc]

theorem sortAux_perm (l : List Scored) :
    ∀ acc : List Scored, List.Perm (l.foldl (fun a x => insertDesc x a) acc) (acc ++ l) := by
  induction l with
  | nil => intro acc; simp
  | cons x xs ih =>
    intro acc
    simp only [List.foldl_cons]
    refine (ih (insertDesc x acc)).trans ?_
    refine (List.Perm.append_right xs (insertDesc_perm x acc)).trans ?_
    exact List.perm_middle.symm

theorem sortAux_sorted (l : List Scored) :
    ∀ acc : List Scored, acc.Pairwise (fun a b => b.1 ≤ a.1) →
      (l.foldl (fun a x => insertDesc x a) acc).Pairwise (fun a b => b.1 ≤ a.1) := by
  induction l with
  | nil => intro acc h; simpa using h
  | cons x xs ih =>
    intro acc h
    simp only [List.foldl_cons]
    exact ih _ (insertDesc_sorted x acc h)

theorem sortAux_filter (c : ℚ) (l : List Scored) :
    ∀ acc : List Scored, acc.Pairwise (fun a b => b.1 ≤ a.1) →
      (l.foldl (fun a x => insertDesc x a) acc).filter (fun z => z.1 = c)
        = acc.filter (fun z => z.1 = c) ++ l.filter (fun z => z.1 = c) := by
  induction l with
  | nil => intro acc _; simp
  | cons x xs ih =>
    intro acc h
    simp only [List.foldl_cons]
    rw [ih _ (insertDesc_sorted x acc h), insertDesc_filter c x acc h]
    by_cases hxc : x.1 = c <;> simp [hxc, List.filter_cons]

theorem sortRanked_perm (l : List Scored) : List.Perm (sortRanked l) l := by
  simpa [sortRanked] using sortAux_perm l []

theorem sortRanked_sorted (l : List Scored) :
    (sortRanked l).Pairwise (fun a b => b.1 ≤ a.1) := by
  simpa [sortRanked] using sortAux_sorted l [] (by simp)

theorem sortRanked_filter (l : List Scored) (c : ℚ) :
    (sortRanked l).filter (fun z => z.1 = c) = l.filter (fun z => z.1 = c) := by
  simpa [sortRanked] using sortAux_filter c l [] (by simp)

theorem researchQuery_eq (env : Env) (ppq : Nat) (st : CoordState) (q : String) :
    researchQuery env ppq st q
      = { st with search_results := st.search_results ++ queryResults env ppq q } := by
  unfold researchQuery queryResults
  generalize pickTuples env ppq q = ps
  induction ps generalizing st with
  | nil => simp
  | cons p ps ih =>
    simp only [List.foldl_cons, List.map_cons, ih]
    simp [List.append_assoc]

theorem researchQueries_eq (env : Env) (ppq : Nat) (qs : List String) :
    ∀ st : CoordState, researchQueries env ppq st qs
      = { st with search_results :=
            st.search_results ++ (qs.map (queryResults env ppq)).flatten } := by
  induction qs with
  | nil => intro st; simp [researchQueries]
  | cons q qs ih =>
    intro st
    have h1 : researchQueries env ppq st (q :: qs)
        = researchQueries env ppq (researchQuery env ppq st q) qs := rfl
    rw [h1, ih, researchQuery_eq]
    simp [List.append_assoc]

theorem researchLoop_counts (env : Env) (ppq : Nat) (topic : String) :
    ∀ (k : Nat) (st : CoordState),
      (researchLoop env ppq topic k st).2.1 ≤ k
        ∧ (researchLoop env ppq topic k st).2.2 ≤ k := by
  intro k
  induction k with
  | zero => intro st; simp [researchLoop]
  | succ k ih =>
    intro st
    simp only [researchLoop]
    split
    · rcases ih (researchQueries env ppq st
        (env.followUp (findingsText topic st)).queries) with ⟨h1, h2⟩
      constructor
      · simpa using Nat.add_le_add_right h1 1
      · simpa using Nat.add_le_add_right h2 1
    · constructor
      · exact Nat.zero_le _
      · exact Nat.succ_le_succ (Nat.zero_le _)

theorem researchLoop_state (env : Env) (ppq : Nat) (topic : String) :
    ∀ (k : Nat) (st : CoordState),
      (researchLoop env ppq topic k st).1.search_results
        = st.search_results ++
            ((loopBatches env ppq topic k st).map
              (fun b => (b.map (queryResults env ppq)).flatten)).flatten
      ∧ (researchLoop env ppq topic k st).1.generated_queries = st.generated_queries := by
  intro k
  induction k with
  | zero => intro st; simp [researchLoop, loopBatches]
  | succ k ih =>
    intro st
    simp only [researchLoop, loopBatches]
    split
    · rcases ih (researchQueries env ppq st
        (env.followUp (findingsText topic st)).queries) with ⟨h1, h2⟩
      constructor
      · rw [h1, researchQueries_eq]
        simp [List.append_assoc]
      · rw [h2, researchQueries_eq]
    · simp

theorem pyJoin_cons_eq (sep : String) :
    ∀ (a : String) (es : List String),
      pyJoin sep (a :: es) = a ++ strJoin (es.map (fun e => sep ++ e)) := by
  intro a es
  induction es generalizing a with
  | nil => simp [pyJoin, strJoin]
  | cons b rest ih =>
    simp only [pyJoin, List.map_cons, strJoin, ih b]
    simp [String.append_assoc]

theorem foldl_append_strings {α : Type} (f : α → String) :
    ∀ (l : List α) (init : String),
      l.foldl (fun acc p => acc ++ f p) init = init ++ strJoin (l.map f) := by
  intro l
  induction l with
  | nil => intro init; simp [strJoin]
  | cons p ps ih =>
    intro init
    simp only [List.foldl_cons, List.map_cons, strJoin, ih]
    simp [String.append_assoc]

theorem findingsText_eq (topic : String) (st : CoordState) :
    findingsText topic st
      = "Original Query: " ++ topic ++ "\n\nCurrent Findings:" ++
          strJoin ((st.search_results.enumFrom 1).map
            (fun p => "\n" ++ findingLine p.1 p.2)) := by
  unfold findingsText
  have h1 : (["Original Query: " ++ topic, "", "Current Findings:"] ++
      (st.search_results.enumFrom 1).map (fun p => findingLine p.1 p.2))
      = ("Original Query: " ++ topic) :: "" :: "Current Findings:" ::
        (st.search_results.enumFrom 1).map (fun p => findingLine p.1 p.2) := rfl
  rw [h1]
  simp only [pyJoin]
  rw [pyJoin_cons_eq]
  simp only [List.map_map, String.append_assoc]
  rfl

theorem synthInput_eq (topic : String) (results : List SearchResult) :
    synthInput topic results
      = synthPreamble topic ++
          strJoin ((results.enumFrom 1).map (fun p => findingLine p.1 p.2)) := by
  unfold synthInput
  rw [foldl_append_strings]

theorem match_score_eq (query title url snippet : Option String) :
    _match_score query title url snippet
      = if tokenSet query = ∅ then 0
        else 0.6 * overlapQ (tokenSet query) (tokenSet title)
          + 0.25 * overlapQ (tokenSet query) (tokenSet snippet)
          + 0.15 * overlapQ (tokenSet query) (tokenSet url)
          + phraseBonus query title := rfl

theorem overlap_bounds (q x : Finset String) : 0 ≤ overlapQ q x ∧ overlapQ q x ≤ 1 := by
  unfold overlapQ
  have h1 : (1:ℕ) ≤ max 1 q.card := le_max_left _ _
  have hden : (0:ℚ) < ((max 1 q.card : ℕ) : ℚ) := by
    have : (0:ℕ) < max 1 q.card := lt_of_lt_of_le Nat.zero_lt_one h1
    exact_mod_cast this
  constructor
  · exact div_nonneg (by positivity) (le_of_lt hden)
  · rw [div_le_one hden]
    have hsub : (q ∩ x).card ≤ q.card := Finset.card_le_card Finset.inter_subset_left
    have : (q ∩ x).card ≤ max 1 q.card := le_trans hsub (le_max_right _ _)
    exact_mod_cast this

theorem phraseBonus_cases (query title : Option String) :
    phraseBonus query title = 0 ∨ phraseBonus query title = 0.1 := by
  unfold phraseBonus
  split
  · right; rfl
  · left; rfl

/-- C8 (amended): the scorer's value always lies in the interval [0, 1.1]. -/
theorem match_score_range (query title url snippet : Option String) :
    0 ≤ _match_score query title url snippet
      ∧ _match_score query title url snippet ≤ 1.1 := by
  rw [match_score_eq]
  split
  · norm_num
  · rcases overlap_bounds (tokenSet query) (tokenSet title) with ⟨ht0, ht1⟩
    rcases overlap_bounds (tokenSet query) (tokenSet snippet) with ⟨hs0, hs1⟩
    rcases overlap_bounds (tokenSet query) (tokenSet url) with ⟨hu0, hu1⟩
    rcases phraseBonus_cases query title with hb | hb <;> rw [hb] <;>
      constructor <;> nlinarith

/-- C8 counterexample: with query, title, url and snippet all "hello" the
scorer returns 1.1, which lies outside [0, 1]. -/
theorem match_score_gt_one_cex :
    _match_score (Option.some "hello") (Option.some "hello") (Option.some "hello")
        (Option.some "hello") = 1.1
      ∧ ¬ (_match_score (Option.some "hello") (Option.some "hello") (Option.some "hello")
        (Option.some "hello") ≤ 1) := by
  with_unfolding_all decide

/-- C2: scorer reference definition — for every (query, title, url, snippet),
`_match_score` equals `0.6*overlap(T) + 0.25*overlap(S) + 0.15*overlap(U) +
phrase_bonus` over the residual token sets, and a query with an empty residual
token set yields exactly 0. -/
theorem match_score_reference (query title url snippet : Option String) :
    _match_score query title url snippet
      = if tokenSet query = ∅ then 0
        else 0.6 * overlapQ (tokenSet query) (tokenSet title)
          + 0.25 * overlapQ (tokenSet query) (tokenSet snippet)
          + 0.15 * overlapQ (tokenSet query) (tokenSet url)
          + phraseBonus query title := rfl

/-- C10: implicit totality of scoring — tokenization coerces a falsy (`None`
or empty) input to `""`; scoring is total and treats a `None` or missing
title/url/snippet field exactly as the empty string, whose token set is empty
and therefore contributes 0 overlap; a `None` or empty query scores 0. -/
theorem tok_score_total (q t u s : Option String) :
    _tok Option.none = []
      ∧ _tok (Option.some "") = []
      ∧ tokenSet Option.none = ∅
      ∧ _match_score Option.none t u s = 0
      ∧ _match_score (Option.some "") t u s = 0
      ∧ _match_score q Option.none u s = _match_score q (Option.some "") u s
      ∧ _match_score q t Option.none s = _match_score q t (Option.some "") s
      ∧ _match_score q t u Option.none = _match_score q t u (Option.some "")
      ∧ overlapQ (tokenSet q) (tokenSet Option.none) = 0
      ∧ scoreHit q ⟨Option.none, Option.none, Option.none, Option.none⟩
          = _match_score q (Option.some "") (Option.some "") (Option.some "")
      ∧ scoreHit q ⟨Option.some Option.none, Option.some Option.none,
            Option.some Option.none, Option.some Option.none⟩
          = _match_score q Option.none Option.none (Option.some "") := by
  refine ⟨rfl, rfl, rfl, rfl, rfl, rfl, rfl, rfl, ?_, rfl, rfl⟩
  unfold overlapQ tokenSet
  simp [_tok, charRuns, pushChar]

/-- C1: round cap — for every environment (hence every sequence of follow-up
decisions, including always-continue ones) and every `max_rounds = N ≥ 1`, a
`research()` call performs at most N research rounds, and the follow-up
decision adapter is invoked at most N - 1 times, so after the N-th round the
coordinator proceeds to synthesis without a further follow-up evaluation. -/
theorem round_cap (env : Env) (ppq : Nat) (topic : String) (N : Nat) (h : 1 ≤ N) :
    (research env ppq N topic).rounds ≤ N
      ∧ (research env ppq N topic).followUpCalls ≤ N - 1 := by
  have h1 := (researchLoop_counts env ppq topic (N - 1) (afterRound1 env ppq)).1
  have h2 := (researchLoop_counts env ppq topic (N - 1) (afterRound1 env ppq)).2
  constructor
  · show 1 + (researchLoop env ppq topic (N - 1) (afterRound1 env ppq)).2.1 ≤ N
    omega
  · show (researchLoop env ppq topic (N - 1) (afterRound1 env ppq)).2.2 ≤ N - 1
    omega

/-- C1 witness: at a concrete always-continue environment with max_rounds 2. -/
theorem round_cap_witness :
    1 ≤ 2
      ∧ ((research envW 2 2 "t").rounds ≤ 2
        ∧ (research envW 2 2 "t").followUpCalls ≤ 2 - 1) :=
  ⟨by decide, round_cap envW 2 "t" 2 (by decide)⟩

/-- C7: follow-up short-circuit — if `max_rounds > 1` and the follow-up
decision evaluated on the round-1 digest returns `should_follow_up = false`,
the call performs exactly one research round and one follow-up evaluation, the
final state is exactly the round-1 state, and the report is synthesized from
it. -/
theorem follow_up_short_circuit (env : Env) (ppq : Nat) (topic : String) (N : Nat)
    (hN : 2 ≤ N)
    (hd : (env.followUp (findingsText topic (afterRound1 env ppq))).should_follow_up
      = false) :
    research env ppq N topic
      = { state := afterRound1 env ppq
          report := env.synthesize (synthInput topic (afterRound1 env ppq).search_results)
          rounds := 1
          followUpCalls := 1 } := by
  obtain ⟨k, hk⟩ : ∃ k, N - 1 = k + 1 := ⟨N - 2, by omega⟩
  unfold research
  rw [hk]
  simp only [researchLoop, hd]
  rfl

/-- C7 witness: at a concrete stop-immediately environment with max_rounds 2. -/
theorem follow_up_short_circuit_witness :
    2 ≤ 2
      ∧ (envStop.followUp (findingsText "t" (afterRound1 envStop 2))).should_follow_up
          = false
      ∧ research envStop 2 2 "t"
          = { state := afterRound1 envStop 2
              report := envStop.synthesize (synthInput "t" (afterRound1 envStop 2).search_results)
              rounds := 1
              followUpCalls := 1 } :=
  ⟨by decide, rfl, follow_up_short_circuit envStop 2 "t" 2 (by decide) rfl⟩

/-- C9: frame — `generated_queries` is set once from the initial query
generation and left unchanged by round execution, the follow-up loop and
synthesis, so the post-call state exposes exactly the initially generated
queries. -/
theorem generated_queries_frame (env : Env) (ppq N : Nat) (topic : String) :
    (research env ppq N topic).state.generated_queries = env.queryGen.queries
      ∧ (∀ (st : CoordState) (qs : List String),
          (researchQueries env ppq st qs).generated_queries = st.generated_queries)
      ∧ (∀ (k : Nat) (st : CoordState),
          (researchLoop env ppq topic k st).1.generated_queries = st.generated_queries) := by
  refine ⟨?_, ?_, ?_⟩
  · show (researchLoop env ppq topic (N - 1) (afterRound1 env ppq)).1.generated_queries = _
    rw [(researchLoop_state env ppq topic (N - 1) (afterRound1 env ppq)).2]
    unfold afterRound1
    rw [researchQueries_eq]
  · intro st qs
    rw [researchQueries_eq]
  · intro k st
    exact (researchLoop_state env ppq topic k st).2

/-- C5: order preservation — the accumulated results equal the round-by-round,
query-by-query, pick-by-pick concatenation in production order (no reordering,
no deduplication), and both digests (follow-up and synthesis) list every
accumulated result numbered 1-based in that same order. -/
theorem order_preservation (env : Env) (ppq N : Nat) (topic : String) :
    (research env ppq N topic).state.search_results
        = ((env.queryGen.queries :: loopBatches env ppq topic (N - 1) (afterRound1 env ppq)).map
            (fun b => (b.map (queryResults env ppq)).flatten)).flatten
      ∧ (∀ st : CoordState,
          findingsText topic st
            = "Original Query: " ++ topic ++ "\n\nCurrent Findings:" ++
                strJoin ((st.search_results.enumFrom 1).map
                  (fun p => "\n" ++ findingLine p.1 p.2)))
      ∧ (∀ results : List SearchResult,
          synthInput topic results
            = synthPreamble topic ++
                strJoin ((results.enumFrom 1).map (fun p => findingLine p.1 p.2))) := by
  refine ⟨?_, fun st => findingsText_eq topic st, fun rs => synthInput_eq topic rs⟩
  show (researchLoop env ppq topic (N - 1) (afterRound1 env ppq)).1.search_results = _
  rw [(researchLoop_state env ppq topic (N - 1) (afterRound1 env ppq)).1]
  have h1 : (afterRound1 env ppq).search_results
      = (env.queryGen.queries.map (queryResults env ppq)).flatten := by
    unfold afterRound1
    rw [researchQueries_eq]
    simp
  rw [h1]
  simp [List.map_cons, List.flatten_cons]

theorem research_congr (env env' : Env)
    (hqg : env'.queryGen = env.queryGen)
    (hs : ∀ x, ddgSearch env' x = ddgSearch env x)
    (hsum : env'.summarize = env.summarize)
    (hf : env'.followUp = env.followUp)
    (hsyn : env'.synthesize = env.synthesize) :
    ∀ (ppq N : Nat) (topic : String), research env' ppq N topic = research env ppq N topic := by
  have hpt : ∀ ppq x, pickTuples env' ppq x = pickTuples env ppq x := by
    intro ppq x
    unfold pickTuples
    rw [hs]
  have hrp : ∀ p, resultOfPick env' p = resultOfPick env p := by
    intro p
    unfold resultOfPick
    rw [hsum]
  have hfn : (fun (acc : CoordState) (p : Scored) =>
        { acc with search_results := acc.search_results ++ [resultOfPick env' p] })
      = (fun (acc : CoordState) (p : Scored) =>
        { acc with search_results := acc.search_results ++ [resultOfPick env p] }) := by
    funext acc p
    rw [hrp]
  have hrq : ∀ ppq st x, researchQuery env' ppq st x = researchQuery env ppq st x := by
    intro ppq st x
    unfold researchQuery
    rw [hpt, hfn]
  have hrqs : ∀ ppq (qs : List String) st,
      researchQueries env' ppq st qs = researchQueries env ppq st qs := by
    intro ppq qs
    induction qs with
    | nil => intro st; rfl
    | cons x xs ih =>
      intro st
      have e1 : researchQueries env' ppq st (x :: xs)
          = researchQueries env' ppq (researchQuery env' ppq st x) xs := rfl
      have e2 : researchQueries env ppq st (x :: xs)
          = researchQueries env ppq (researchQuery env ppq st x) xs := rfl
      rw [e1, e2, hrq, ih]
  have hloop : ∀ ppq (topic : String) (k : Nat) st,
      researchLoop env' ppq topic k st = researchLoop env ppq topic k st := by
    intro ppq topic k
    induction k with
    | zero => intro st; rfl
    | succ k ih =>
      intro st
      simp only [researchLoop, hf]
      split
      · rw [hrqs, ih]
      · rfl
  intro ppq N topic
  unfold research afterRound1
  simp only [hqg, hrqs, hloop, hsyn]

/-- C6: search-failure resilience — when the provider raises on a query, the
search step returns the empty hit list, that query contributes zero candidates
and zero accumulated results, the round continues with the remaining queries,
and the whole `research()` call behaves exactly as if the provider had
returned no results, so no exception from this cause escapes. -/
theorem search_failure_resilience (env : Env) (ppq N : Nat) (topic : String)
    (q e : String) (h : env.ddgText q = Except.error e) :
    ddgSearch env q = []
      ∧ pickTuples env ppq q = []
      ∧ queryResults env ppq q = []
      ∧ (∀ (st : CoordState) (qs1 qs2 : List String),
          researchQueries env ppq st (qs1 ++ q :: qs2)
            = researchQueries env ppq st (qs1 ++ qs2))
      ∧ research env ppq N topic = research (envClearSearch env q) ppq N topic := by
  have h0 : ddgSearch env q = [] := by
    unfold ddgSearch
    rw [h]
  have hp : pickTuples env ppq q = [] := by
    unfold pickTuples
    rw [h0]
    simp [picksOf, sortRanked, rankHits]
  have hqr : queryResults env ppq q = [] := by
    unfold queryResults
    rw [hp]
    rfl
  have hskip : ∀ st, researchQuery env ppq st q = st := by
    intro st
    unfold researchQuery
    rw [hp]
    rfl
  refine ⟨h0, hp, hqr, ?_, ?_⟩
  · intro st qs1 qs2
    unfold researchQueries
    rw [List.foldl_append, List.foldl_append, List.foldl_cons, hskip]
  · refine research_congr (envClearSearch env q) env rfl ?_ rfl rfl rfl ppq N topic
    intro x
    refine Eq.symm ?_
    unfold envClearSearch ddgSearch
    simp only
    by_cases hx : x = q
    · subst hx
      rw [if_pos rfl, h]
    · rw [if_neg hx]

/-- C6 witness: at a concrete environment whose provider raises on query "a". -/
theorem search_failure_resilience_witness :
    envErr.ddgText "a" = Except.error "boom"
      ∧ (ddgSearch envErr "a" = []
        ∧ pickTuples envErr 2 "a" = []
        ∧ queryResults envErr 2 "a" = []
        ∧ (∀ (st : CoordState) (qs1 qs2 : List String),
            researchQueries envErr 2 st (qs1 ++ "a" :: qs2)
              = researchQueries envErr 2 st (qs1 ++ qs2))
        ∧ research envErr 2 2 "t" = research (envClearSearch envErr "a") 2 2 "t") :=
  ⟨rfl, search_failure_resilience envErr 2 2 "t" "a" "boom" rfl⟩

/-- C3 counterexample: with picks_per_query = 0 and a hit clearing the
threshold, the fallback still emits one candidate, so the output is not the
thresholded sorted list truncated to picks_per_query. -/
theorem ranker_shape_ppq_zero_cex :
    (∃ x ∈ rankHits (Option.some "hello") [hitHello], MIN_SCORE ≤ x.1)
      ∧ picksOf (sortRanked (rankHits (Option.some "hello") [hitHello])) 0
          ≠ ((sortRanked (rankHits (Option.some "hello") [hitHello])).filter
              (fun x => MIN_SCORE ≤ x.1)).take 0 := by
  with_unfolding_all decide

/-- C3 (amended): ranker output shape — for every query, raw hit list and
`picks_per_query ≥ 1`, whenever some hit clears the 0.26 threshold the filter
output is the stable-sorted scored-hit list (non-increasing scores, a
permutation of the scored hits, ties kept in original relative order)
restricted to scores ≥ 0.26 and truncated to at most `picks_per_query`
candidates. -/
theorem ranker_output_shape (q : Option String) (raw : List RawHit) (ppq : Nat)
    (hppq : 1 ≤ ppq)
    (hhit : ∃ x ∈ rankHits q raw, MIN_SCORE ≤ x.1) :
    picksOf (sortRanked (rankHits q raw)) ppq
        = ((sortRanked (rankHits q raw)).filter (fun x => MIN_SCORE ≤ x.1)).take ppq
      ∧ (sortRanked (rankHits q raw)).Pairwise (fun a b => b.1 ≤ a.1)
      ∧ List.Perm (sortRanked (rankHits q raw)) (rankHits q raw)
      ∧ (∀ c : ℚ, (sortRanked (rankHits q raw)).filter (fun z => z.1 = c)
          = (rankHits q raw).filter (fun z => z.1 = c))
      ∧ (picksOf (sortRanked (rankHits q raw)) ppq).length ≤ ppq := by
  obtain ⟨x, hxl, hxs⟩ := hhit
  have hxs' : x ∈ sortRanked (rankHits q raw) :=
    (sortRanked_perm (rankHits q raw)).mem_iff.mpr hxl
  have hfne : (sortRanked (rankHits q raw)).filter (fun z => MIN_SCORE ≤ z.1) ≠ [] := by
    intro hnil
    have hnone := List.filter_eq_nil_iff.mp hnil x hxs'
    simp [hxs] at hnone
  obtain ⟨z, zs, hz⟩ := List.exists_cons_of_ne_nil hfne
  obtain ⟨m, rfl⟩ : ∃ m, ppq = m + 1 := ⟨ppq - 1, by omega⟩
  have hmain : picksOf (sortRanked (rankHits q raw)) (m + 1)
      = ((sortRanked (rankHits q raw)).filter (fun z => MIN_SCORE ≤ z.1)).take (m + 1) := by
    unfold picksOf
    rw [if_neg]
    rw [hz]
    simp
  refine ⟨hmain, sortRanked_sorted _, sortRanked_perm _,
    fun c => sortRanked_filter _ c, ?_⟩
  rw [hmain]
  exact le_trans (List.length_take_le _ _) (le_refl _)

/-- C3 witness: concrete query "hello", one clearing hit, picks_per_query 1. -/
theorem ranker_output_shape_witness :
    (1 ≤ 1 ∧ ∃ x ∈ rankHits (Option.some "hello") [hitHello], MIN_SCORE ≤ x.1)
      ∧ (picksOf (sortRanked (rankHits (Option.some "hello") [hitHello])) 1
          = ((sortRanked (rankHits (Option.some "hello") [hitHello])).filter
              (fun x => MIN_SCORE ≤ x.1)).take 1
        ∧ (sortRanked (rankHits (Option.some "hello") [hitHello])).Pairwise
            (fun a b => b.1 ≤ a.1)
        ∧ List.Perm (sortRanked (rankHits (Option.some "hello") [hitHello]))
            (rankHits (Option.some "hello") [hitHello])
        ∧ (∀ c : ℚ, (sortRanked (rankHits (Option.some "hello") [hitHello])).filter
              (fun z => z.1 = c)
            = (rankHits (Option.some "hello") [hitHello]).filter (fun z => z.1 = c))
        ∧ (picksOf (sortRanked (rankHits (Option.some "hello") [hitHello])) 1).length ≤ 1) :=
  ⟨⟨by decide, by with_unfolding_all decide⟩,
    ranker_output_shape (Option.some "hello") [hitHello] 1 (by decide)
      (by with_unfolding_all decide)⟩

/-- C4: fallback guarantee. -/
theorem fallback_single (q : Option String) (raw : List RawHit) (ppq : Nat)
    (hne : rankHits q raw ≠ [])
    (hbelow : ∀ x ∈ rankHits q raw, x.1 < MIN_SCORE) :
    ∃ best : Scored,
      picksOf (sortRanked (rankHits q raw)) ppq = [best]
        ∧ best ∈ rankHits q raw
        ∧ (∀ x ∈ rankHits q raw, x.1 ≤ best.1)
        ∧ ((rankHits q raw).filter (fun z => z.1 = best.1)).head? = Option.some best := by
  have hsne : sortRanked (rankHits q raw) ≠ [] := by
    intro h0
    have hlen := (sortRanked_perm (rankHits q raw)).length_eq
    rw [h0] at hlen
    exact hne (List.length_eq_zero.mp hlen.symm)
  obtain ⟨b, rest, hbr⟩ := List.exists_cons_of_ne_nil hsne
  have hfilter_nil : (sortRanked (rankHits q raw)).filter (fun z => MIN_SCORE ≤ z.1) = [] := by
    rw [List.filter_eq_nil_iff]
    intro z hz
    have hzl : z ∈ rankHits q raw := (sortRanked_perm (rankHits q raw)).mem_iff.mp hz
    simp [not_le.mpr (hbelow z hzl)]
  have hpicks : picksOf (sortRanked (rankHits q raw)) ppq = [b] := by
    unfold picksOf
    rw [hfilter_nil, hbr]
    simp
  have hbmem : b ∈ rankHits q raw :=
    (sortRanked_perm (rankHits q raw)).mem_iff.mp (hbr ▸ List.mem_cons_self b rest)
  have hmax : ∀ x ∈ rankHits q raw, x.1 ≤ b.1 := by
    intro x hx
    have hx' : x ∈ sortRanked (rankHits q raw) :=
      (sortRanked_perm (rankHits q raw)).mem_iff.mpr hx
    rw [hbr] at hx'
    rcases List.mem_cons.mp hx' with rfl | hx''
    · exact le_refl _
    · have hpw := sortRanked_sorted (rankHits q raw)
      rw [hbr] at hpw
      exact (List.pairwise_cons.mp hpw).1 x hx''
  have hhead : ((rankHits q raw).filter (fun z => z.1 = b.1)).head? = Option.some b := by
    rw [← sortRanked_filter (rankHits q raw) b.1, hbr]
    simp [List.filter_cons]
  exact ⟨b, hpicks, hbmem, hmax, hhead⟩

/-- C4 witness: query "alpha beta" with two hits scoring 0 and 0.075. -/
theorem fallback_single_witness :
    (rankHits (Option.some "alpha beta") [hitBare, hitUrlAlpha] ≠ []
      ∧ ∀ x ∈ rankHits (Option.some "alpha beta") [hitBare, hitUrlAlpha], x.1 < MIN_SCORE)
      ∧ ∃ best : Scored,
          picksOf (sortRanked (rankHits (Option.some "alpha beta")
              [hitBare, hitUrlAlpha])) 2 = [best]
            ∧ best ∈ rankHits (Option.some "alpha beta") [hitBare, hitUrlAlpha]
            ∧ (∀ x ∈ rankHits (Option.some "alpha beta") [hitBare, hitUrlAlpha],
                x.1 ≤ best.1)
            ∧ ((rankHits (Option.some "alpha beta") [hitBare, hitUrlAlpha]).filter
                (fun z => z.1 = best.1)).head? = Option.some best :=
  ⟨⟨by with_unfolding_all decide, by with_unfolding_all decide⟩,
    fallback_single (Option.some "alpha beta") [hitBare, hitUrlAlpha] 2
      (by with_unfolding_all decide) (by with_unfolding_all decide)⟩

/-- Uniqueness of stable descending sorting: two lists that are permutations of
each other, both sorted by non-increasing score, and whose score classes agree
as lists, are equal.  Together with `sortRanked_perm`, `sortRanked_sorted` and
`sortRanked_filter` this shows `sortRanked` is extensionally the unique stable
descending sort, hence a faithful embedding of Python's stable
`list.sort(reverse=True, key=lambda x: x[0])`. -/
theorem stable_sort_unique :
    ∀ (m₁ m₂ : List Scored), List.Perm m₁ m₂ →
      m₁.Pairwise (fun a b => b.1 ≤ a.1) → m₂.Pairwise (fun a b => b.1 ≤ a.1) →
      (∀ c : ℚ, m₁.filter (fun z => z.1 = c) = m₂.filter (fun z => z.1 = c)) →
      m₁ = m₂ := by
  intro m₁
  induction m₁ with
  | nil =>
    intro m₂ hp _ _ _
    exact (hp.symm.eq_nil).symm
  | cons x xs ih =>
    intro m₂ hp hs₁ hs₂ hf
    obtain ⟨y, ys, rfl⟩ : ∃ y ys, m₂ = y :: ys := by
      cases m₂ with
      | nil => exact absurd hp.eq_nil (by simp)
      | cons y ys => exact ⟨y, ys, rfl⟩
    have hyx : y.1 = x.1 := by
      have hy₁ : y ∈ x :: xs := hp.mem_iff.mpr (List.mem_cons_self y ys)
      have hx₂ : x ∈ y :: ys := hp.symm.mem_iff.mpr (List.mem_cons_self x xs)
      have h1 : y.1 ≤ x.1 := by
        rcases List.mem_cons.mp hy₁ with h | h
        · rw [h]
        · exact (List.pairwise_cons.mp hs₁).1 y h
      have h2 : x.1 ≤ y.1 := by
        rcases List.mem_cons.mp hx₂ with h | h
        · rw [h]
        · exact (List.pairwise_cons.mp hs₂).1 x h
      exact le_antisymm h1 h2
    have hfx := hf x.1
    rw [List.filter_cons, List.filter_cons] at hfx
    simp only [decide_eq_true_eq, if_pos rfl, hyx, if_pos] at hfx
    obtain ⟨hxy, htail⟩ := List.cons.injEq _ _ _ _ ▸ hfx
    have hperm' : List.Perm xs ys := by
      have hp' := hp
      rw [hxy] at hp'
      exact hp'.cons_inv
    have hfilters : ∀ c : ℚ, xs.filter (fun z => z.1 = c) = ys.filter (fun z => z.1 = c) := by
      intro c
      by_cases hc : x.1 = c
      · subst hc
        exact htail
      · have h := hf c
        rw [List.filter_cons, List.filter_cons] at h
        have hxc : (decide (x.1 = c)) = false := by simp [hc]
        have hyc : (decide (y.1 = c)) = false := by simp [hyx, hc]
        rw [hxc, hyc] at h
        simpa using h
    have hxs : xs = ys :=
      ih ys hperm' (List.pairwise_cons.mp hs₁).2 (List.pairwise_cons.mp hs₂).2 hfilters
    rw [hxy, hxs]
